import Mathlib

/-!
Verification of the notification-parsing pipeline of `ToolShedEmailParsing.py`.

Python strings are modelled as lists of characters (`PyStr`); the Python
string methods the script uses are given explicit executable models, and each
function of the script is embedded as a Lean definition over them.  `Option`
models uncaught Python exceptions (IndexError and friends) where the script
can raise them.
-/

set_option maxHeartbeats 1000000

namespace ToolShedEmail

/-- Python strings, modelled as lists of characters. -/
abbrev PyStr := List Char

/-- View a Lean string literal as a `PyStr`. -/
def str (s : String) : PyStr := s.data

/-- Characters treated as whitespace by Python `str.strip()` and no-argument
`str.split()` (the ASCII whitespace set; the script only handles ASCII). -/
def isPySpace (c : Char) : Bool :=
  c = ' ' || c = '\t' || c = '\n' || c = '\r' || c = '\x0b' || c = '\x0c'

/-- Drop the longest suffix whose characters all satisfy `p`. -/
def dropRightWhile (p : Char → Bool) (l : PyStr) : PyStr :=
  (l.reverse.dropWhile p).reverse

/-- Model of Python `str.strip()`. -/
def pyStrip (s : PyStr) : PyStr :=
  dropRightWhile isPySpace (s.dropWhile isPySpace)

/-- Model of the Python slice `s[-1:]`: the last character as a one-character
string, or the empty string when `s` is empty. -/
def lastSlice (s : PyStr) : PyStr :=
  match s.reverse with
  | [] => []
  | c :: _ => [c]

/-- Model of Python `str.replace(old, new)` for a one-character `old`. -/
def replaceChar (c : Char) (r : PyStr) : PyStr → PyStr
  | [] => []
  | x :: rest => (if x = c then r else [x]) ++ replaceChar c r rest

/-- Model of Python `str.split(sep)` for a one-character separator (keeps
empty fields), generalised to a character predicate. -/
def splitBy (p : Char → Bool) : PyStr → List PyStr
  | [] => [[]]
  | c :: rest =>
    if p c then [] :: splitBy p rest
    else
      match splitBy p rest with
      | [] => [[c]]
      | l :: ls => (c :: l) :: ls

/-- Model of Python `str.split(":")`, `str.split(" ")` and similar. -/
def pySplitChar (sep : Char) (s : PyStr) : List PyStr :=
  splitBy (fun c => c = sep) s

/-- Model of Python no-argument `str.split()`: split on whitespace runs,
discarding empty fields. -/
def pySplitWs (s : PyStr) : List PyStr :=
  (splitBy isPySpace s).filter (fun l => l ≠ [])

/-- Model of Python `str.split("\r\n")`, used to cut the fetched IMAP header
and body payloads into lines. -/
def splitCRLF : PyStr → List PyStr
  | [] => [[]]
  | '\r' :: '\n' :: rest => [] :: splitCRLF rest
  | c :: rest =>
    match splitCRLF rest with
    | [] => [[c]]
    | l :: ls => (c :: l) :: ls

/-- Model of Python `str.startswith`. -/
def pyStartsWith : PyStr → PyStr → Bool
  | [], _ => true
  | _ :: _, [] => false
  | p :: ps, c :: cs => p = c && pyStartsWith ps cs

/-- Period-appending step of `polish` (src lines 53-54): append a period when
the text is non-empty and its final one-character slice is not one of `"."`,
`"\n"` (a raw two-character literal in the source, which a one-character
slice never equals) or `" "`. -/
def addDot (t : PyStr) : PyStr :=
  if t.length > 0 ∧ lastSlice t ∉ [str ".", str "\\n", str " "] then t ++ str "."
  else t

/-- Embedding of `polish` (src lines 44-56), the three statements in source
order: strip (line 52), conditional period append (lines 53-54), newline
replacement by two spaces (line 55). -/
def polish (text : PyStr) : PyStr :=
  replaceChar '\n' (str "  ") (addDot (pyStrip text))

/-- Expected sender of tool shed notifications (src line 27). -/
def TOOLSHED_SENDER : PyStr := str "galaxy-no-reply@toolshed.g2.bx.psu.edu"

/-- Components of `urllib.parse.urlparse` that the script reads. -/
structure UrlParts where
  scheme : PyStr
  netloc : PyStr
  path : PyStr
deriving DecidableEq

/-- Model of `urllib.parse.urlparse` for absolute URLs of the shape
`scheme://netloc/path` with no query or fragment — the shape of tool shed
shareable links, the only URLs the script parses. -/
def urlparse (u : PyStr) : UrlParts :=
  let scheme := u.takeWhile (fun c => c ≠ ':')
  let rest := u.drop (scheme.length + 1)
  match rest with
  | '/' :: '/' :: r =>
    let netloc := r.takeWhile (fun c => c ≠ '/')
    ⟨scheme, netloc, r.drop netloc.length⟩
  | _ => ⟨scheme, [], rest⟩

/-- Model of `os.path.split`: cut after the last slash; the head keeps no
trailing slashes unless it consists only of slashes. -/
def ospathSplit (p : PyStr) : PyStr × PyStr :=
  let tail := (p.reverse.takeWhile (fun c => c ≠ '/')).reverse
  let head := p.take (p.length - tail.length)
  if head ≠ [] ∧ head.any (fun c => c ≠ '/') then
    (dropRightWhile (fun c => c = '/') head, tail)
  else (head, tail)

/-- Embedding of the commit-message loop of `ToolShedRepo.parseEmail`
(src lines 143-159).  The first argument list is `self.body` from line index
`DESCR_START_LINE = 5` on; the loop runs one step per line until the part of
the line before the first colon equals `"Uploaded by"` or `"Changed by"`.
`none` models an uncaught IndexError: either the loop runs past the end of
the body without meeting such a line, or `lineParts[1]` is read from a
one-token line in the planemo test. -/
def commitLoop (strip : Bool) : List PyStr → PyStr → Option PyStr
  | [], _ => none
  | l :: rest, commit =>
    if (pySplitChar ':' l).headD [] = str "Uploaded by" ∨
        (pySplitChar ':' l).headD [] = str "Changed by" then
      some commit
    else
      let lineParts := pySplitChar ' ' l
      let step : Option PyStr :=
        if lineParts.headD [] = str "Uploaded" then
          if lineParts.length > 1 then
            some (commit ++ List.intercalate (str " ") lineParts.tail)
          else some commit
        else if strip then
          if lineParts.headD [] = str "planemo" then
            match lineParts[1]? with
            | some w => if w = str "upload" then some commit else some (commit ++ l)
            | none => none
          else some (commit ++ l)
        else some (commit ++ l)
      match step with
      | none => none
      | some c => commitLoop strip rest (polish c)

/-- Fields of a `ToolShedRepo` that `parseEmail` computes from the body text
(src lines 130-159). -/
structure BodyFields where
  url : PyStr
  authorUrl : PyStr
  author : PyStr
  name : PyStr
  revision : PyStr
  commit : PyStr
deriving DecidableEq

/-- Embedding of the body part of `ToolShedRepo.parseEmail` (src lines
130-159), over the body already split on CRLF.  `none` models an uncaught
IndexError (missing body line, missing link token, missing revision field,
or a failure inside the commit loop).  `ospathSplit` returns the pair
`(authorPath, name)` of src line 136. -/
def parseBody (body : List PyStr) (strip : Bool) : Option BodyFields :=
  match body[1]? with
  | none => none
  | some linkLine =>
    match (pySplitWs linkLine)[2]? with
    | none => none
    | some url =>
      let parts := urlparse url
      let ap := ospathSplit parts.path
      let authorUrl := parts.scheme ++ str "://" ++ parts.netloc ++ ap.1
      let author := (pySplitChar '/' authorUrl).getLastD []
      match body[3]? with
      | none => none
      | some revLine =>
        match (pySplitChar ':' revLine)[2]? with
        | none => none
        | some revision =>
          match commitLoop strip (body.drop 5) [] with
          | none => none
          | some commit => some ⟨url, authorUrl, author, ap.2, revision, commit⟩

/-- Possible outcomes of `ToolShedRepo.parseEmail` on one header/body pair.
`notToolShed` is the early `return None` at src line 128: at that point only
`self.sender` and `self.subject` have been assigned, and nothing
distinguishes this return value from the `return None` of a successful
parse.  `err` models an uncaught IndexError. -/
inductive ParseOutcome where
  | ok (sender subject : PyStr) (fields : BodyFields)
  | notToolShed (sender subject : PyStr)
  | err
deriving DecidableEq

/-- Embedding of `ToolShedRepo.parseEmail` (src lines 77-160), over the
decoded header and body payloads (the IMAP tuple plumbing and UTF-8 decode
at src lines 124 and 131 are transport glue outside the embedding). -/
def parseEmail (headerTxt bodyTxt : PyStr) (strip : Bool) : ParseOutcome :=
  let hdrs := splitCRLF headerTxt
  match hdrs[0]?, hdrs[1]? with
  | some h0, some h1 =>
    let sender := h0.drop 6
    let subject := h1.drop 9
    if sender = TOOLSHED_SENDER then
      match parseBody (splitCRLF bodyTxt) strip with
      | some f => .ok sender subject f
      | none => .err
    else .notToolShed sender subject
  | _, _ => .err

/-- JSON scalar values occurring in the fields the script reads from a
catalog response (the API returns booleans for the flag fields and strings
for the text fields). -/
inductive JVal where
  | b (v : Bool)
  | s (v : PyStr)
deriving DecidableEq

/-- One JSON object of the catalog response, as a key-value list. -/
abbrev JObj := List (PyStr × JVal)

/-- Model of Python dict lookup `obj[k]` on a decoded JSON object: the value
at the key, or `none` (KeyError) when absent. -/
def jget (o : JObj) (k : PyStr) : Option JVal :=
  (o.find? (fun p => p.1 = k)).map (fun p => p.2)

/-- Fields that `ToolShedRepo.getToolShedInfo` adds to the record. -/
structure TSInfo where
  passe : Bool
  synopsis : PyStr
  description : PyStr
  type : PyStr
deriving DecidableEq

/-- Optional polished text field of the catalog response (src lines 177-183):
the `description`/`long_description` handling — default empty when the key
is absent, `polish` applied when present as a string; a present non-string
value would make `polish` raise in Python, modelled by `none`. -/
def textField (v : Option JVal) : Option PyStr :=
  match v with
  | none => some []
  | some (.s s) => some (polish s)
  | some (.b _) => none

/-- Optional `type` field of the catalog response (src lines 179, 184-185):
default `"Unknown"` when absent.  The model expects a string value, as the
API returns. -/
def typeField (v : Option JVal) : Option PyStr :=
  match v with
  | none => some (str "Unknown")
  | some (.s s) => some s
  | some (.b _) => none

/-- Embedding of the response handling of `ToolShedRepo.getToolShedInfo`
(src lines 162-186), over the decoded JSON response (the HTTP GET, the
escaped-CR strip and `json.loads` are transport glue outside the embedding).
Line 176 computes `_tsData[0]["deleted"] or _tsData[0]["deprecated"] or
_tsData[1]["malicious"]` with Python's short-circuiting `or`:
`_tsData[0]["deleted"]` is always read (KeyError when the key is absent,
IndexError when the response is empty, both modelled by `none`);
`_tsData[0]["deprecated"]` is read only when `deleted` is falsy; and
`_tsData[1]` and its `malicious` key are read only when `deleted` and
`deprecated` are both falsy.  `description`, `long_description` and `type`
are guarded by membership tests and default-filled.  The model expects the
flag values that are actually read to be JSON booleans, as the API
returns (a present non-boolean flag is out of the model's scope, `none`). -/
def getToolShedInfo (tsData : List JObj) : Option TSInfo :=
  match tsData[0]? with
  | none => none
  | some e0 =>
    let passeOpt : Option Bool :=
      match jget e0 (str "deleted") with
      | some (.b true) => some true
      | some (.b false) =>
        match jget e0 (str "deprecated") with
        | some (.b true) => some true
        | some (.b false) =>
          match tsData[1]? with
          | none => none
          | some e1 =>
            match jget e1 (str "malicious") with
            | some (.b mal) => some mal
            | _ => none
        | _ => none
      | _ => none
    match passeOpt with
    | none => none
    | some passe =>
      match textField (jget e0 (str "description")),
          textField (jget e0 (str "long_description")),
          typeField (jget e0 (str "type")) with
      | some syn, some desc, some ty => some ⟨passe, syn, desc, ty⟩
      | _, _, _ => none

/-- Possible outcomes of `ToolShedRepo.__init__` (src lines 66-74), which
calls `parseEmail` and then unconditionally `getToolShedInfo`.
`attributeError` is the crash after the mismatched-sender early return:
`getToolShedInfo` builds the API URL from `self.name` (src line 169), an
attribute that was never assigned, so Python raises AttributeError before
any network request is issued. -/
inductive InitOutcome where
  | ok (sender subject : PyStr) (fields : BodyFields) (info : TSInfo)
  | attributeError
  | indexError
  | infoError
deriving DecidableEq

/-- Embedding of `ToolShedRepo.__init__` (src lines 66-74).  `resp` stands
for the decoded JSON the catalog returns for the record's
(name, owner, changeset_revision) key. -/
def tsInit (headerTxt bodyTxt : PyStr) (strip : Bool) (resp : List JObj) :
    InitOutcome :=
  match parseEmail headerTxt bodyTxt strip with
  | .notToolShed _ _ => .attributeError
  | .err => .indexError
  | .ok sender subject f =>
    match getToolShedInfo resp with
    | some info => .ok sender subject f info
    | none => .infoError

/-- Embedding of `ToolShedRepo.isUpdate` (src lines 189-194): compare token
index 3 of the whitespace-split subject with `"update"`; `none` models the
IndexError raised when the subject has fewer than four tokens. -/
def isUpdate (subject : PyStr) : Option Bool :=
  ((pySplitWs subject)[3]?).map (fun w => decide (w = str "update"))

/-- Embedding of `ToolShedRepo.isNew` (src lines 196-201): compare token
index 3 of the whitespace-split subject with `"alert"`. -/
def isNew (subject : PyStr) : Option Bool :=
  ((pySplitWs subject)[3]?).map (fun w => decide (w = str "alert"))

/-- One fully built repo record as the main loop sees it: the parsed email
fields together with the catalog fields (`type` is the record's category,
`passe` the flagged bit returned by `isPasse`). -/
structure Repo where
  sender : PyStr
  subject : PyStr
  url : PyStr
  authorUrl : PyStr
  author : PyStr
  name : PyStr
  revision : PyStr
  commit : PyStr
  passe : Bool
  synopsis : PyStr
  description : PyStr
  type : PyStr
deriving DecidableEq

/-- Model of Python dict lookup `m[k]` on insertion-ordered dictionaries,
which the aggregation indexes are. -/
def dlookup {α : Type} : List (PyStr × α) → PyStr → Option α
  | [], _ => none
  | (k, v) :: rest, key => if k = key then some v else dlookup rest key

/-- Model of Python dict assignment `m[k] = v`: replace in place when the
key is present, otherwise append (insertion order). -/
def dinsert {α : Type} : List (PyStr × α) → PyStr → α → List (PyStr × α)
  | [], key, v => [(key, v)]
  | (k, w) :: rest, key, v =>
    if k = key then (key, v) :: rest else (k, w) :: dinsert rest key v

/-- The `newToolRepos` index: category → author → repository name → record. -/
abbrev NewIndex := List (PyStr × List (PyStr × List (PyStr × Repo)))

/-- The `updates` index: category → author → repository name → record list. -/
abbrev UpdIndex := List (PyStr × List (PyStr × List (PyStr × List Repo)))

/-- Embedding of the new-repo branch of the main loop (src lines 278-285):
create the missing nesting levels, then store the record only when its name
is not already present. -/
def insertNew (idx : NewIndex) (r : Repo) : NewIndex :=
  let idx1 := if dlookup idx r.type = none then dinsert idx r.type [] else idx
  let m1 := (dlookup idx1 r.type).getD []
  let idx2 :=
    if dlookup m1 r.author = none then dinsert idx1 r.type (dinsert m1 r.author [])
    else idx1
  let m1b := (dlookup idx2 r.type).getD []
  let m2 := (dlookup m1b r.author).getD []
  if dlookup m2 r.name = none then
    dinsert idx2 r.type (dinsert m1b r.author (dinsert m2 r.name r))
  else idx2

/-- Embedding of the update branch of the main loop (src lines 286-293):
create the missing nesting levels (with an empty list at the name level),
then append the record to the list. -/
def insertUpd (idx : UpdIndex) (r : Repo) : UpdIndex :=
  let idx1 := if dlookup idx r.type = none then dinsert idx r.type [] else idx
  let m1 := (dlookup idx1 r.type).getD []
  let idx2 :=
    if dlookup m1 r.author = none then dinsert idx1 r.type (dinsert m1 r.author [])
    else idx1
  let m1b := (dlookup idx2 r.type).getD []
  let m2 := (dlookup m1b r.author).getD []
  let idx3 :=
    if dlookup m2 r.name = none then
      dinsert idx2 r.type (dinsert m1b r.author (dinsert m2 r.name []))
    else idx2
  let m1c := (dlookup idx3 r.type).getD []
  let m2c := (dlookup m1c r.author).getD []
  let cur := (dlookup m2c r.name).getD []
  dinsert idx3 r.type (dinsert m1c r.author (dinsert m2c r.name (cur ++ [r])))

/-- The module-level aggregation state of the main loop (src lines 243-245). -/
structure AggState where
  newToolRepos : NewIndex
  updates : UpdIndex
  passe : List Repo

/-- Outcome of one main-loop iteration on an already built record:
`ok` for a routed record, `diag` for the "Not a tool shed repo" diagnostic
branch (state unchanged, record discarded), `crash` for an uncaught
IndexError inside `isNew`/`isUpdate`. -/
inductive StepResult where
  | ok (st : AggState)
  | diag (st : AggState)
  | crash

/-- Embedding of the routing part of the main loop (src lines 276-296):
flagged records first, then new repos, then updates, else the diagnostic. -/
def mainStep (st : AggState) (r : Repo) : StepResult :=
  if r.passe then .ok ⟨st.newToolRepos, st.updates, st.passe ++ [r]⟩
  else
    match isNew r.subject with
    | none => .crash
    | some true => .ok ⟨insertNew st.newToolRepos r, st.updates, st.passe⟩
    | some false =>
      match isUpdate r.subject with
      | none => .crash
      | some true => .ok ⟨st.newToolRepos, insertUpd st.updates r, st.passe⟩
      | some false => .diag st

/-- Lookup of one record in the `newToolRepos` index by its key triple. -/
def dlookup3 (idx : NewIndex) (t a n : PyStr) : Option Repo :=
  match dlookup idx t with
  | none => none
  | some m =>
    match dlookup m a with
    | none => none
    | some m2 => dlookup m2 n

/-- Lookup of the record list in the `updates` index by its key triple. -/
def dlookup3U (idx : UpdIndex) (t a n : PyStr) : Option (List Repo) :=
  match dlookup idx t with
  | none => none
  | some m =>
    match dlookup m a with
    | none => none
    | some m2 => dlookup m2 n

/-- Stop condition of the commit loop as the specification words it: the
line begins with `"Uploaded by"` or `"Changed by"`. -/
def specStop (l : PyStr) : Bool :=
  pyStartsWith (str "Uploaded by") l || pyStartsWith (str "Changed by") l

/-- Stop condition of the commit loop as the code computes it: the part of
the line before the first colon equals `"Uploaded by"` or `"Changed by"`. -/
def codeStop (l : PyStr) : Bool :=
  decide ((pySplitChar ':' l).headD [] = str "Uploaded by") ||
  decide ((pySplitChar ':' l).headD [] = str "Changed by")

/-- Modelled from the specification's words for the commit-message
accumulation, to be compared with `commitLoop`: iterate lines until one
beginning with `"Uploaded by"` or `"Changed by"` (exclusive); a line whose
first token is exactly `"Uploaded"` contributes only its trailing words;
with the strip-planemo option enabled a line beginning with
`"planemo upload"` contributes nothing, with it disabled the line is
included whole; after each contribution the accumulated message is
re-normalized. -/
def commitClaimLoop (strip : Bool) : List PyStr → PyStr → Option PyStr
  | [], _ => none
  | l :: rest, acc =>
    if specStop l then some acc
    else
      let toks := pySplitChar ' ' l
      let contrib :=
        if toks.headD [] = str "Uploaded" then List.intercalate (str " ") toks.tail
        else if strip && pyStartsWith (str "planemo upload") l then []
        else l
      commitClaimLoop strip rest (polish (acc ++ contrib))

/-- Format conditions under which the specification's prefix-based reading
of one scanned (non-stop) line agrees with the code's token-based tests:
the line does not begin with a stop marker, a line whose first token is
`"planemo"` has a second token, and the line begins with `"planemo upload"`
exactly when its first two tokens are `"planemo"` and `"upload"`. -/
def contentWF (l : PyStr) : Bool :=
  !specStop l &&
  (!(decide ((pySplitChar ' ' l).headD [] = str "planemo")) ||
    ((pySplitChar ' ' l)[1]?).isSome) &&
  (pyStartsWith (str "planemo upload") l ==
    (decide ((pySplitChar ' ' l).headD [] = str "planemo") &&
      decide ((pySplitChar ' ' l)[1]? = some (str "upload"))))

/-- Well-formedness of the scanned region of the body: each line up to the
stop line satisfies `contentWF`, and a stop line is a stop line in both the
specification's and the code's reading. -/
def scanWF : List PyStr → Bool
  | [] => true
  | l :: rest => (specStop l && codeStop l) || (contentWF l && scanWF rest)

/-- True when an optional catalog field is not present with a boolean value
(the shape on which the script's text handling is defined). -/
def isNotBoolField : Option JVal → Bool
  | some (.b _) => false
  | _ => true

/-- Header fixture whose `From` line is not the tool shed sender. -/
def c1Header : PyStr :=
  str "From: someone@example.com\r\nSubject: Galaxy tool shed repository update alert\r\n\r\n"

/-- Body fixture accompanying `c1Header` (its content is irrelevant: the
sender check fails first). -/
def c1AnyBody : PyStr :=
  str "\r\nSharable link:         https://toolshed.g2.bx.psu.edu/view/kaymccoy/calculate_fitness\r\n"

/-- Catalog response fixture missing the mandatory `deleted` key. -/
def tsRespNoDeleted : List JObj :=
  [[(str "deprecated", .b false)], [(str "malicious", .b false)]]

/-- First element of the minimal catalog response fixture. -/
def tsRespMinimalE0 : JObj :=
  [(str "deleted", .b false), (str "deprecated", .b false)]

/-- Second element of the minimal catalog response fixture. -/
def tsRespMinimalE1 : JObj := [(str "malicious", .b false)]

/-- Catalog response fixture carrying all three flag keys (all falsy, so the
whole `or` chain is evaluated) and no optional keys. -/
def tsRespMinimal : List JObj := [tsRespMinimalE0, tsRespMinimalE1]

/-- Catalog response fixture consisting of a single element whose only key
is a truthy `deleted`: the short-circuiting `or` never reads `deprecated`,
`_tsData[1]` or `malicious`. -/
def tsRespDeletedOnly : List JObj := [[(str "deleted", .b true)]]

/-- First element of the full catalog response fixture. -/
def tsRespFullE0 : JObj :=
  [(str "deleted", .b false), (str "deprecated", .b true),
   (str "description", .s (str "A small tool")),
   (str "long_description", .s (str "Does things")),
   (str "type", .s (str "unrestricted"))]

/-- Second element of the full catalog response fixture. -/
def tsRespFullE1 : JObj := [(str "malicious", .b false)]

/-- Catalog response fixture with optional fields present. -/
def tsRespFull : List JObj := [tsRespFullE0, tsRespFullE1]

/-- Well-formed body fixture (docstring style) whose commit region is the
two free-text lines `"foo"` and `"bar"`. -/
def c10Body : List PyStr :=
  [[],
   str "Sharable link:         https://toolshed.g2.bx.psu.edu/view/alice/mytool",
   str "Repository name:       mytool",
   str "Revision:              4:deadbeef1234",
   str "Change description:",
   str "foo",
   str "bar",
   str "Uploaded by:           alice",
   str "Date content uploaded: 2016-11-06"]

/-- Commit-region fixture containing a planemo-generated line. -/
def planemoLines : List PyStr :=
  [str "planemo upload of some tool", str "Uploaded by:           kaymccoy"]

/-- Subject fixture whose token index 3 is `"alert"`. -/
def subjNew : PyStr := str "Galaxy tool shed alert"

/-- Subject fixture whose token index 3 is `"update"`. -/
def subjUpd : PyStr := str "Galaxy tool shed update alert"

/-- Subject fixture whose token index 3 is neither `"alert"` nor
`"update"` (it is `"repository"`). -/
def subjOther : PyStr := str "Galaxy tool shed repository update alert"

/-- Record fixture: an unflagged new-repo notification. -/
def repoA : Repo :=
  ⟨TOOLSHED_SENDER, subjNew, str "https://toolshed.g2.bx.psu.edu/view/alice/mytool",
    str "https://toolshed.g2.bx.psu.edu/view/alice", str "alice", str "mytool",
    str "deadbeef1234", str "one.", false, [], [], str "Unknown"⟩

/-- Record fixture: a second new-repo notification with the same key triple
as `repoA` but a different commit message. -/
def repoB : Repo := { repoA with commit := str "two." }

/-- Record fixture: an unflagged update notification. -/
def repoU1 : Repo := { repoA with subject := subjUpd, commit := str "u1." }

/-- Record fixture: a second update notification with the same key triple. -/
def repoU2 : Repo := { repoA with subject := subjUpd, commit := str "u2." }

/-- Record fixture: a flagged (passe) record whose subject says new. -/
def repoPasse : Repo := { repoA with passe := true }

/-- Record fixture: an unflagged record with an unrecognized subject. -/
def repoOther : Repo := { repoA with subject := subjOther }

/-- The empty aggregation state the main loop starts from. -/
def emptyAgg : AggState := ⟨[], [], []⟩

/-! Helper lemmas about the Python string models. -/

theorem getLastD_irrel {α : Type} {l : List α} (h : l ≠ []) (d e : α) :
    l.getLastD d = l.getLastD e := by
  induction l with
  | nil => exact absurd rfl h
  | cons a t ih =>
    cases t with
    | nil => rfl
    | cons b t2 => simp only [List.getLastD_cons]

theorem getLastD_append {α : Type} (as : List α) {bs : List α} (h : bs ≠ [])
    (d : α) : (as ++ bs).getLastD d = bs.getLastD d := by
  induction as with
  | nil => rfl
  | cons a t ih =>
    have hne : t ++ bs ≠ [] := by
      intro hnil
      rcases List.append_eq_nil.mp hnil with ⟨_, h2⟩
      exact h h2
    rw [List.cons_append, List.getLastD_cons, getLastD_irrel hne a d, ih]

theorem takeWhile_append_all {α : Type} {q : α → Bool} {as : List α}
    (bs : List α) (h : ∀ x ∈ as, q x = true) :
    (as ++ bs).takeWhile q = as ++ bs.takeWhile q := by
  induction as with
  | nil => rfl
  | cons a t ih =>
    have ha : q a = true := h a (List.mem_cons_self a t)
    simp only [List.cons_append, List.takeWhile_cons, ha, if_true]
    rw [ih (fun x hx => h x (List.mem_cons_of_mem a hx))]

theorem takeWhile_append_stop {α : Type} {q : α → Bool} {as : List α}
    (bs : List α) (h : ¬ ∀ x ∈ as, q x = true) :
    (as ++ bs).takeWhile q = as.takeWhile q := by
  induction as with
  | nil => exact absurd (fun x hx => absurd hx (List.not_mem_nil x)) h
  | cons a t ih =>
    cases ha : q a with
    | false =>
      simp only [List.cons_append, List.takeWhile_cons, ha]
      simp
    | true =>
      have ht : ¬ ∀ x ∈ t, q x = true := by
        intro hall
        exact h (fun x hx => by
          rcases List.mem_cons.mp hx with h1 | h2
          · exact h1 ▸ ha
          · exact hall x h2)
      simp only [List.cons_append, List.takeWhile_cons, ha, if_true, ih ht]

theorem takeWhile_append_cons {α : Type} {q : α → Bool} {as : List α}
    {y : α} (ys : List α) (h : ∀ x ∈ as, q x = true) (hy : q y = false) :
    (as ++ y :: ys).takeWhile q = as := by
  rw [takeWhile_append_all (y :: ys) h, List.takeWhile_cons, hy]
  simp

theorem drop_append_cons {α : Type} (as : List α) (y : α) (ys : List α) :
    (as ++ y :: ys).drop (as.length + 1) = ys := by
  induction as with
  | nil => rfl
  | cons a t ih => simp [ih]

theorem take_append_cons {α : Type} (as : List α) (y : α) (ys : List α) :
    (as ++ y :: ys).take (as.length + 1) = as ++ [y] := by
  induction as with
  | nil => rfl
  | cons a t ih => simpa using ih

theorem splitBy_ne_nil (p : Char → Bool) (l : PyStr) : splitBy p l ≠ [] := by
  cases l with
  | nil => simp [splitBy]
  | cons c rest =>
    rw [splitBy]
    cases hp : p c with
    | true => simp
    | false =>
      simp only [Bool.false_eq_true, if_false]
      cases splitBy p rest <;> simp

theorem headD_splitBy (p : Char → Bool) (l : PyStr) :
    (splitBy p l).headD [] = l.takeWhile (fun c => !p c) := by
  induction l with
  | nil => rfl
  | cons c rest ih =>
    rw [splitBy, List.takeWhile_cons]
    cases hp : p c with
    | true => simp
    | false =>
      simp only [Bool.false_eq_true, if_false, Bool.not_false, if_true]
      cases hs : splitBy p rest with
      | nil => exact absurd hs (splitBy_ne_nil p rest)
      | cons x xs =>
        rw [hs] at ih
        simpa using congrArg (fun t => (c :: t : PyStr)) ih

theorem splitBy_all_false {p : Char → Bool} {l : PyStr}
    (h : ∀ x ∈ l, p x = false) : splitBy p l = [l] := by
  induction l with
  | nil => rfl
  | cons c rest ih =>
    have hc : p c = false := h c (List.mem_cons_self c rest)
    rw [splitBy, hc]
    simp only [Bool.false_eq_true, if_false]
    rw [ih (fun x hx => h x (List.mem_cons_of_mem c hx))]

theorem splitBy_two_le {p : Char → Bool} {l : PyStr}
    (h : ∃ x ∈ l, p x = true) : 2 ≤ (splitBy p l).length := by
  induction l with
  | nil => simp at h
  | cons c rest ih =>
    rw [splitBy]
    cases hp : p c with
    | true =>
      have := splitBy_ne_nil p rest
      simp only [if_true]
      cases hs : splitBy p rest with
      | nil => exact absurd hs this
      | cons x xs => simp
    | false =>
      rcases h with ⟨x, hx, hpx⟩
      rcases List.mem_cons.mp hx with h1 | h2
      · rw [h1] at hpx; rw [hp] at hpx; exact absurd hpx (by simp)
      · have h2le := ih ⟨x, h2, hpx⟩
        simp only [Bool.false_eq_true, if_false]
        cases hs : splitBy p rest with
        | nil => exact absurd hs (splitBy_ne_nil p rest)
        | cons y ys => rw [hs] at h2le; simpa using h2le

theorem takeWhile_append_single_false {α : Type} {q : α → Bool} {c : α}
    (as : List α) (hc : q c = false) :
    (as ++ [c]).takeWhile q = as.takeWhile q := by
  induction as with
  | nil => simp [List.takeWhile_cons, hc]
  | cons a t ih =>
    cases ha : q a with
    | false => simp [List.takeWhile_cons, ha]
    | true => simp [List.takeWhile_cons, ha, ih]

theorem getLastD_splitBy (p : Char → Bool) (l : PyStr) :
    (splitBy p l).getLastD [] =
      (l.reverse.takeWhile (fun c => !p c)).reverse := by
  induction l with
  | nil => rfl
  | cons c rest ih =>
    rw [splitBy, List.reverse_cons]
    cases hp : p c with
    | true =>
      have hq : (fun c => !p c) c = false := by simp [hp]
      rw [takeWhile_append_single_false rest.reverse hq]
      simp only [if_true, List.getLastD_cons]
      exact ih
    | false =>
      simp only [Bool.false_eq_true, if_false]
      by_cases hall : ∀ x ∈ rest.reverse, (!p x) = true
      · have hrest : ∀ x ∈ rest, p x = false := by
          intro x hx
          have := hall x (List.mem_reverse.mpr hx)
          simpa using this
        have hone : List.takeWhile (fun c => !p c) [c] = [c] := by
          simp [List.takeWhile_cons, hp]
        rw [splitBy_all_false hrest, takeWhile_append_all [c] hall, hone]
        simp
      · have hex : ∃ x ∈ rest, p x = true := by
          by_contra hno
          push_neg at hno
          refine hall (fun x hx => ?_)
          have := hno x (List.mem_reverse.mp hx)
          simp [this]
        have h2le := splitBy_two_le hex
        cases hs : splitBy p rest with
        | nil => exact absurd hs (splitBy_ne_nil p rest)
        | cons x xs =>
          rw [hs] at h2le ih
          have hxs : xs ≠ [] := by
            intro hxsnil
            rw [hxsnil] at h2le
            simp at h2le
          rw [takeWhile_append_stop [c] hall]
          simp only [List.getLastD_cons] at ih ⊢
          rw [getLastD_irrel hxs (c :: x) x]
          exact ih

theorem headD_append {α : Type} {xs : List α} (ys : List α) (d : α)
    (h : xs ≠ []) : (xs ++ ys).headD d = xs.headD d := by
  cases xs with
  | nil => exact absurd rfl h
  | cons a t => rfl

theorem headD_reverse (l : PyStr) (d : Char) : l.reverse.headD d = l.getLastD d := by
  induction l with
  | nil => rfl
  | cons a t ih =>
    rw [List.reverse_cons]
    cases hrev : t.reverse with
    | nil =>
      have : t = [] := List.reverse_eq_nil_iff.mp hrev
      subst this
      rfl
    | cons c u =>
      have htne : t ≠ [] := by
        intro hnil
        rw [hnil] at hrev
        simp at hrev
      rw [hrev] at ih
      simp only [List.headD_cons] at ih
      simp only [List.cons_append, List.headD_cons]
      rw [List.getLastD_cons, getLastD_irrel htne a d]
      exact ih

theorem getLastD_reverse (l : PyStr) (d : Char) :
    l.reverse.getLastD d = l.headD d := by
  have := headD_reverse l.reverse d
  rw [List.reverse_reverse] at this
  exact this.symm

theorem dropWhile_headD_false {p : Char → Bool} {l : PyStr} (d : Char)
    (h : l.dropWhile p ≠ []) : p ((l.dropWhile p).headD d) = false := by
  induction l with
  | nil => exact absurd rfl h
  | cons c rest ih =>
    rw [List.dropWhile_cons] at h ⊢
    by_cases hp : p c = true
    · rw [if_pos hp] at h ⊢
      exact ih h
    · rw [if_neg hp] at h ⊢
      simp only [List.headD_cons]
      simp only [Bool.not_eq_true] at hp
      exact hp

theorem dropWhile_eq_self {p : Char → Bool} {l : PyStr} (d : Char)
    (h : l = [] ∨ p (l.headD d) = false) : l.dropWhile p = l := by
  cases l with
  | nil => rfl
  | cons c rest =>
    rcases h with h1 | h2
    · exact absurd h1 (by simp)
    · rw [List.dropWhile_cons]
      simp only [List.headD_cons] at h2
      rw [h2]
      simp

theorem getLastD_dropWhile {p : Char → Bool} {l : PyStr} (d : Char)
    (h : l.dropWhile p ≠ []) : (l.dropWhile p).getLastD d = l.getLastD d := by
  induction l with
  | nil => exact absurd rfl h
  | cons c rest ih =>
    rw [List.dropWhile_cons] at h ⊢
    by_cases hp : p c = true
    · rw [if_pos hp] at h ⊢
      have hrne : rest ≠ [] := by
        intro hnil
        rw [hnil] at h
        exact h rfl
      rw [ih h, List.getLastD_cons, getLastD_irrel hrne c d]
    · rw [if_neg hp] at h ⊢

theorem pyStrip_head {s : PyStr} (d : Char) (h : pyStrip s ≠ []) :
    isPySpace ((pyStrip s).headD d) = false := by
  have hinner : (s.dropWhile isPySpace).reverse.dropWhile isPySpace ≠ [] := by
    intro hnil
    apply h
    rw [pyStrip, dropRightWhile, hnil]
    rfl
  have hu : s.dropWhile isPySpace ≠ [] := by
    intro hnil
    rw [hnil] at hinner
    exact hinner rfl
  rw [pyStrip, dropRightWhile, headD_reverse, getLastD_dropWhile d hinner,
    getLastD_reverse]
  exact dropWhile_headD_false d hu

theorem pyStrip_last {s : PyStr} (d : Char) (h : pyStrip s ≠ []) :
    isPySpace ((pyStrip s).getLastD d) = false := by
  have hinner : (s.dropWhile isPySpace).reverse.dropWhile isPySpace ≠ [] := by
    intro hnil
    apply h
    rw [pyStrip, dropRightWhile, hnil]
    rfl
  rw [pyStrip, dropRightWhile, getLastD_reverse]
  exact dropWhile_headD_false d hinner

theorem pyStrip_eq_self {l : PyStr} (d : Char)
    (hh : isPySpace (l.headD d) = false) (hl : isPySpace (l.getLastD d) = false) :
    pyStrip l = l := by
  cases hcase : l with
  | nil => rfl
  | cons c rest =>
    rw [← hcase]
    have hlne : l ≠ [] := by rw [hcase]; simp
    have h1 : l.dropWhile isPySpace = l := dropWhile_eq_self d (Or.inr hh)
    have hrne : l.reverse ≠ [] := by
      intro hnil
      exact hlne (List.reverse_eq_nil_iff.mp hnil)
    have h2 : l.reverse.dropWhile isPySpace = l.reverse := by
      refine dropWhile_eq_self d (Or.inr ?_)
      rw [headD_reverse]
      exact hl
    rw [pyStrip, dropRightWhile, h1, h2, List.reverse_reverse]

theorem replaceChar_ne_nil {c : Char} {r : PyStr} (hr : r ≠ []) {l : PyStr}
    (h : l ≠ []) : replaceChar c r l ≠ [] := by
  cases l with
  | nil => exact absurd rfl h
  | cons x rest =>
    rw [replaceChar]
    intro hnil
    rcases List.append_eq_nil.mp hnil with ⟨h1, _⟩
    by_cases hx : x = c
    · rw [if_pos hx] at h1; exact hr h1
    · rw [if_neg hx] at h1; exact absurd h1 (by simp)

theorem headD_replaceChar {c : Char} {r : PyStr} {l : PyStr} (d : Char)
    (hh : l.headD d ≠ c) (h : l ≠ []) :
    (replaceChar c r l).headD d = l.headD d := by
  cases l with
  | nil => exact absurd rfl h
  | cons x rest =>
    simp only [List.headD_cons] at hh ⊢
    rw [replaceChar, if_neg hh]
    rfl

theorem getLastD_replaceChar {c : Char} {r : PyStr} (hr : r ≠ []) {l : PyStr}
    (d : Char) (h : l ≠ []) (hl : l.getLastD d ≠ c) :
    (replaceChar c r l).getLastD d = l.getLastD d := by
  induction l with
  | nil => exact absurd rfl h
  | cons x rest ih =>
    cases hrest : rest with
    | nil =>
      subst hrest
      simp only [List.getLastD_cons, List.getLastD_nil] at hl ⊢
      rw [replaceChar, if_neg hl, replaceChar]
      rfl
    | cons y t =>
      rw [← hrest]
      have hrestne : rest ≠ [] := by rw [hrest]; simp
      have hlrest : rest.getLastD d ≠ c := by
        rw [List.getLastD_cons, getLastD_irrel hrestne x d] at hl
        exact hl
      have hrepne : replaceChar c r rest ≠ [] := replaceChar_ne_nil hr hrestne
      rw [replaceChar, getLastD_append _ hrepne, ih hrestne hlrest,
        List.getLastD_cons, getLastD_irrel hrestne x d]

theorem not_mem_replaceChar {c : Char} {r : PyStr} (hcr : c ∉ r) (l : PyStr) :
    c ∉ replaceChar c r l := by
  induction l with
  | nil => simp [replaceChar]
  | cons x rest ih =>
    rw [replaceChar]
    intro hmem
    rcases List.mem_append.mp hmem with h1 | h2
    · by_cases hx : x = c
      · rw [if_pos hx] at h1; exact hcr h1
      · rw [if_neg hx] at h1
        simp only [List.mem_singleton] at h1
        exact hx h1.symm
    · exact ih h2

theorem replaceChar_of_not_mem {c : Char} {r : PyStr} {l : PyStr}
    (h : c ∉ l) : replaceChar c r l = l := by
  induction l with
  | nil => rfl
  | cons x rest ih =>
    rw [replaceChar]
    have hx : x ≠ c := by
      intro hxc
      exact h (hxc ▸ List.mem_cons_self x rest)
    rw [if_neg hx, ih (fun hm => h (List.mem_cons_of_mem x hm))]
    rfl

theorem lastSlice_of_ne_nil {l : PyStr} (d : Char) (h : l ≠ []) :
    lastSlice l = [l.getLastD d] := by
  cases hrev : l.reverse with
  | nil => exact absurd (List.reverse_eq_nil_iff.mp hrev) h
  | cons c t =>
    have hc : c = l.getLastD d := by
      have := headD_reverse l d
      rw [hrev] at this
      exact this
    rw [lastSlice, hrev, hc]

theorem addDot_spec {t : PyStr} (d : Char) (hne : t ≠ [])
    (hl : isPySpace (t.getLastD d) = false) :
    addDot t ≠ [] ∧ (addDot t).headD d = t.headD d ∧
      (addDot t).getLastD d = '.' := by
  have hslice : lastSlice t = [t.getLastD d] := lastSlice_of_ne_nil d hne
  have hmem : lastSlice t ∈ [str ".", str "\\n", str " "] ↔ t.getLastD d = '.' := by
    rw [hslice]
    constructor
    · intro hm
      rcases List.mem_cons.mp hm with h1 | hm2
      · simpa [str] using h1
      · rcases List.mem_cons.mp hm2 with h2 | hm3
        · exact absurd h2 (by simp [str])
        · rcases List.mem_cons.mp hm3 with h3 | h4
          · have : t.getLastD d = ' ' := by simpa [str] using h3
            rw [this] at hl
            exact absurd hl (by simp [isPySpace])
          · exact absurd h4 (by simp)
    · intro hdot
      rw [hdot]
      simp [str]
  by_cases hdot : t.getLastD d = '.'
  · have hcond : ¬ (t.length > 0 ∧ lastSlice t ∉ [str ".", str "\\n", str " "]) := by
      intro hcontra
      exact hcontra.2 (hmem.mpr hdot)
    rw [addDot, if_neg hcond]
    exact ⟨hne, rfl, hdot⟩
  · have hcond : t.length > 0 ∧ lastSlice t ∉ [str ".", str "\\n", str " "] := by
      refine ⟨by cases t with | nil => exact absurd rfl hne | cons a u => simp, ?_⟩
      intro hm
      exact hdot (hmem.mp hm)
    rw [addDot, if_pos hcond]
    refine ⟨by simp [str], headD_append _ d hne, ?_⟩
    rw [getLastD_append t (by simp [str]) d]
    simp [str]

theorem polish_of_strip_nil {s : PyStr} (h : pyStrip s = []) : polish s = [] := by
  rw [polish, h]
  rfl

theorem polish_fixed {s : PyStr} (h : pyStrip s ≠ []) :
    pyStrip (polish s) = polish s ∧ addDot (polish s) = polish s ∧
      ('\n' : Char) ∉ polish s := by
  have hrne : str "  " ≠ [] := by simp [str]
  have hh : isPySpace ((pyStrip s).headD ' ') = false := pyStrip_head ' ' h
  have hl : isPySpace ((pyStrip s).getLastD ' ') = false := pyStrip_last ' ' h
  obtain ⟨hane, hahead, halast⟩ := addDot_spec ' ' h hl
  have hheadnn : (addDot (pyStrip s)).headD ' ' ≠ '\n' := by
    rw [hahead]
    intro hcontra
    rw [hcontra] at hh
    exact absurd hh (by simp [isPySpace])
  have hlastnn : (addDot (pyStrip s)).getLastD ' ' ≠ '\n' := by
    rw [halast]
    simp
  have hrh : (polish s).headD ' ' = (pyStrip s).headD ' ' := by
    rw [polish, headD_replaceChar ' ' hheadnn hane, hahead]
  have hrl : (polish s).getLastD ' ' = '.' := by
    rw [polish, getLastD_replaceChar hrne ' ' hane hlastnn, halast]
  have hpne : polish s ≠ [] := by
    rw [polish]
    exact replaceChar_ne_nil hrne hane
  have hnomem : ('\n' : Char) ∉ polish s := by
    rw [polish]
    exact not_mem_replaceChar (by simp [str]) _
  refine ⟨?_, ?_, hnomem⟩
  · refine pyStrip_eq_self ' ' ?_ ?_
    · rw [hrh]; exact hh
    · rw [hrl]; simp [isPySpace]
  · have hslice : lastSlice (polish s) = [(polish s).getLastD ' '] :=
      lastSlice_of_ne_nil ' ' hpne
    have hcond : ¬ ((polish s).length > 0 ∧
        lastSlice (polish s) ∉ [str ".", str "\\n", str " "]) := by
      intro hcontra
      apply hcontra.2
      rw [hslice, hrl]
      simp [str]
    rw [addDot, if_neg hcond]

theorem pyStartsWith_takeWhile (q : Char → Bool) (l : PyStr) :
    pyStartsWith (l.takeWhile q) l = true := by
  induction l with
  | nil => rfl
  | cons c rest ih =>
    rw [List.takeWhile_cons]
    by_cases hq : q c = true
    · rw [if_pos hq, pyStartsWith]
      simp [ih]
    · rw [if_neg hq]
      rfl

theorem codeStop_specStop {l : PyStr} (h : codeStop l = true) :
    specStop l = true := by
  rw [codeStop, Bool.or_eq_true, decide_eq_true_eq, decide_eq_true_eq] at h
  rw [pySplitChar, headD_splitBy] at h
  rw [specStop, Bool.or_eq_true]
  rcases h with h | h
  · left
    rw [← h]
    exact pyStartsWith_takeWhile _ l
  · right
    rw [← h]
    exact pyStartsWith_takeWhile _ l

theorem commitLoop_eq_claim (strip : Bool) (lines : List PyStr) :
    ∀ acc : PyStr, scanWF lines = true →
      commitLoop strip lines acc = commitClaimLoop strip lines acc := by
  induction lines with
  | nil => intro acc _; rfl
  | cons l rest ih =>
    intro acc hwf
    simp only [scanWF, Bool.or_eq_true, Bool.and_eq_true] at hwf
    by_cases hspec : specStop l = true
    · have hcode : codeStop l = true := by
        rcases hwf with ⟨_, hc⟩ | ⟨hcont, _⟩
        · exact hc
        · rw [contentWF, Bool.and_eq_true, Bool.and_eq_true] at hcont
          have := hcont.1.1
          rw [hspec] at this
          exact absurd this (by simp)
      have hcodeProp : (pySplitChar ':' l).headD [] = str "Uploaded by" ∨
          (pySplitChar ':' l).headD [] = str "Changed by" := by
        rw [codeStop, Bool.or_eq_true, decide_eq_true_eq, decide_eq_true_eq] at hcode
        exact hcode
      rw [commitLoop, commitClaimLoop, if_pos hcodeProp, if_pos hspec]
    · rcases hwf with ⟨hs, _⟩ | ⟨hcont, hrest⟩
      · exact absurd hs hspec
      · rw [contentWF, Bool.and_eq_true, Bool.and_eq_true] at hcont
        obtain ⟨⟨_, hsecond⟩, hiff⟩ := hcont
        have hnp : ¬ ((pySplitChar ':' l).headD [] = str "Uploaded by" ∨
            (pySplitChar ':' l).headD [] = str "Changed by") := by
          intro hor
          apply hspec
          apply codeStop_specStop
          rw [codeStop, Bool.or_eq_true, decide_eq_true_eq, decide_eq_true_eq]
          exact hor
        rw [commitLoop, commitClaimLoop]
        simp only [if_neg hnp, if_neg hspec]
        by_cases hU : (pySplitChar ' ' l).headD [] = str "Uploaded"
        · simp only [if_pos hU]
          by_cases hlen : (pySplitChar ' ' l).length > 1
          · simp only [if_pos hlen]
            exact ih _ hrest
          · simp only [if_neg hlen]
            have hone : (pySplitChar ' ' l).tail = [] := by
              cases hsp : pySplitChar ' ' l with
              | nil => exact absurd hsp (splitBy_ne_nil _ l)
              | cons x xs =>
                cases xs with
                | nil => rfl
                | cons y ys =>
                  rw [hsp] at hlen
                  exact absurd (by simp) hlen
            have hint : List.intercalate (str " ") (pySplitChar ' ' l).tail = [] := by
              rw [hone]
              rfl
            simp only [hint, List.append_nil]
            exact ih _ hrest
        · simp only [if_neg hU]
          have hiffeq : pyStartsWith (str "planemo upload") l =
              (decide ((pySplitChar ' ' l).headD [] = str "planemo") &&
                decide ((pySplitChar ' ' l)[1]? = some (str "upload"))) := by
            simpa using hiff
          cases hstrip : strip with
          | false =>
            subst hstrip
            simp only [Bool.false_and, Bool.false_eq_true, if_false]
            exact ih _ hrest
          | true =>
            subst hstrip
            simp only [Bool.true_and, eq_self_iff_true, if_true]
            by_cases hP : (pySplitChar ' ' l).headD [] = str "planemo"
            · have hsome : ((pySplitChar ' ' l)[1]?).isSome = true := by
                rw [Bool.or_eq_true] at hsecond
                rcases hsecond with h1 | h2
                · simp only [Bool.not_eq_true', decide_eq_false_iff_not] at h1
                  exact absurd hP h1
                · exact h2
              obtain ⟨w, hw⟩ := Option.isSome_iff_exists.mp hsome
              simp only [if_pos hP, hw]
              by_cases hwu : w = str "upload"
              · have hstart : pyStartsWith (str "planemo upload") l = true := by
                  rw [hiffeq]
                  simp only [Bool.and_eq_true, decide_eq_true_eq]
                  exact ⟨hP, by rw [hw, hwu]⟩
                simp only [if_pos hwu, hstart, if_true, List.append_nil]
                exact ih _ hrest
              · have hstart : pyStartsWith (str "planemo upload") l = false := by
                  cases hst : pyStartsWith (str "planemo upload") l with
                  | false => rfl
                  | true =>
                    rw [hiffeq] at hst
                    simp only [Bool.and_eq_true, decide_eq_true_eq] at hst
                    rw [hw] at hst
                    have hwq : w = str "upload" := by
                      have h2 := hst.2
                      injection h2
                    exact absurd hwq hwu
                simp only [if_neg hwu, hstart, Bool.false_eq_true, if_false]
                exact ih _ hrest
            · have hstart : pyStartsWith (str "planemo upload") l = false := by
                cases hst : pyStartsWith (str "planemo upload") l with
                | false => rfl
                | true =>
                  rw [hiffeq] at hst
                  simp only [Bool.and_eq_true, decide_eq_true_eq] at hst
                  exact absurd hst.1 hP
              simp only [if_neg hP, hstart, Bool.false_eq_true, if_false]
              exact ih _ hrest

theorem dlookup_dinsert_self {α : Type} (m : List (PyStr × α)) (k : PyStr)
    (v : α) : dlookup (dinsert m k v) k = some v := by
  induction m with
  | nil => simp [dinsert, dlookup]
  | cons p rest ih =>
    obtain ⟨k1, v1⟩ := p
    rw [dinsert]
    by_cases hk : k1 = k
    · rw [if_pos hk, dlookup, if_pos rfl]
    · rw [if_neg hk, dlookup, if_neg hk]
      exact ih

theorem dinsert_dinsert_self {α : Type} (m : List (PyStr × α)) (k : PyStr)
    (v w : α) : dinsert (dinsert m k v) k w = dinsert m k w := by
  induction m with
  | nil => simp [dinsert]
  | cons p rest ih =>
    obtain ⟨k1, v1⟩ := p
    rw [dinsert]
    by_cases hk : k1 = k
    · rw [if_pos hk, dinsert, if_pos rfl, dinsert, if_pos hk]
    · rw [if_neg hk, dinsert, if_neg hk, dinsert, if_neg hk, ih]

theorem dlookup3_insertNew (idx : NewIndex) (r : Repo) :
    dlookup3 (insertNew idx r) r.type r.author r.name =
      some ((dlookup3 idx r.type r.author r.name).getD r) := by
  cases h1 : dlookup idx r.type with
  | none =>
    simp [insertNew, dlookup3, h1, dlookup_dinsert_self, dinsert_dinsert_self,
      dlookup, dinsert]
  | some m1 =>
    cases h2 : dlookup m1 r.author with
    | none =>
      simp [insertNew, dlookup3, h1, h2, dlookup_dinsert_self,
        dinsert_dinsert_self, dlookup, dinsert]
    | some m2 =>
      cases h3 : dlookup m2 r.name with
      | none =>
        simp [insertNew, dlookup3, h1, h2, h3, dlookup_dinsert_self,
          dinsert_dinsert_self, dlookup, dinsert]
      | some v =>
        simp [insertNew, dlookup3, h1, h2, h3, dlookup_dinsert_self,
          dinsert_dinsert_self, dlookup, dinsert]

theorem dlookup3U_insertUpd (idx : UpdIndex) (r : Repo) :
    dlookup3U (insertUpd idx r) r.type r.author r.name =
      some (((dlookup3U idx r.type r.author r.name).getD []) ++ [r]) := by
  cases h1 : dlookup idx r.type with
  | none =>
    simp [insertUpd, dlookup3U, h1, dlookup_dinsert_self, dinsert_dinsert_self,
      dlookup, dinsert]
  | some m1 =>
    cases h2 : dlookup m1 r.author with
    | none =>
      simp [insertUpd, dlookup3U, h1, h2, dlookup_dinsert_self,
        dinsert_dinsert_self, dlookup, dinsert]
    | some m2 =>
      cases h3 : dlookup m2 r.name with
      | none =>
        simp [insertUpd, dlookup3U, h1, h2, h3, dlookup_dinsert_self,
          dinsert_dinsert_self, dlookup, dinsert]
      | some v =>
        simp [insertUpd, dlookup3U, h1, h2, h3, dlookup_dinsert_self,
          dinsert_dinsert_self, dlookup, dinsert]

theorem urlparse_std (scheme host rest : PyStr)
    (hs : (':' : Char) ∉ scheme) (hh : ('/' : Char) ∉ host) :
    urlparse (scheme ++ str "://" ++ host ++ '/' :: rest) =
      ⟨scheme, host, '/' :: rest⟩ := by
  have hu : scheme ++ str "://" ++ host ++ '/' :: rest
      = scheme ++ ':' :: ('/' :: '/' :: (host ++ '/' :: rest)) := by
    have hlit : str "://" = [':', '/', '/'] := rfl
    rw [hlit]
    simp
  rw [hu, urlparse]
  have htake : (scheme ++ ':' :: ('/' :: '/' :: (host ++ '/' :: rest))).takeWhile
      (fun c => decide (c ≠ ':')) = scheme := by
    refine takeWhile_append_cons _ ?_ ?_
    · intro x hx
      simp only [decide_eq_true_eq]
      intro hxc
      exact hs (hxc ▸ hx)
    · simp
  have hdrop : (scheme ++ ':' :: ('/' :: '/' :: (host ++ '/' :: rest))).drop
      (scheme.length + 1) = '/' :: '/' :: (host ++ '/' :: rest) :=
    drop_append_cons scheme ':' _
  have htake2 : (host ++ '/' :: rest).takeWhile (fun c => decide (c ≠ '/'))
      = host := by
    refine takeWhile_append_cons _ ?_ ?_
    · intro x hx
      simp only [decide_eq_true_eq]
      intro hxc
      exact hh (hxc ▸ hx)
    · simp
  have hdrop2 : (host ++ '/' :: rest).drop host.length = '/' :: rest :=
    List.drop_left host ('/' :: rest)
  simp only [htake, hdrop, htake2, hdrop2]

theorem ospathSplit_std (pre a n : PyStr) (ha : a ≠ [])
    (hsa : ('/' : Char) ∉ a) (hsn : ('/' : Char) ∉ n) :
    ospathSplit ((pre ++ '/' :: a) ++ '/' :: n) = (pre ++ '/' :: a, n) := by
  have hrev : ((pre ++ '/' :: a) ++ '/' :: n).reverse
      = n.reverse ++ '/' :: (pre ++ '/' :: a).reverse := by
    simp
  have htail : (((pre ++ '/' :: a) ++ '/' :: n).reverse.takeWhile
      (fun c => decide (c ≠ '/'))).reverse = n := by
    rw [hrev]
    rw [takeWhile_append_cons _ ?_ ?_]
    · exact List.reverse_reverse n
    · intro x hx
      simp only [decide_eq_true_eq]
      intro hxc
      exact hsn (hxc ▸ List.mem_reverse.mp hx)
    · simp
  have hlen : ((pre ++ '/' :: a) ++ '/' :: n).length - n.length
      = (pre ++ '/' :: a).length + 1 := by
    simp only [List.length_append, List.length_cons]
    omega
  have htake : ((pre ++ '/' :: a) ++ '/' :: n).take ((pre ++ '/' :: a).length + 1)
      = (pre ++ '/' :: a) ++ ['/'] :=
    take_append_cons _ '/' n
  obtain ⟨a0, a2, ha0⟩ : ∃ a0 a2, a = a0 :: a2 := by
    cases a with
    | nil => exact absurd rfl ha
    | cons x t => exact ⟨x, t, rfl⟩
  have ha0mem : a0 ∈ a := by rw [ha0]; simp
  have ha0ne : a0 ≠ '/' := fun hc => hsa (hc ▸ ha0mem)
  have hany : ((pre ++ '/' :: a) ++ ['/']).any (fun c => decide (c ≠ '/')) = true := by
    rw [List.any_eq_true]
    refine ⟨a0, ?_, by simpa using ha0ne⟩
    apply List.mem_append_left
    apply List.mem_append_right
    exact List.mem_cons_of_mem '/' ha0mem
  have hdropr : dropRightWhile (fun c => decide (c = '/')) ((pre ++ '/' :: a) ++ ['/'])
      = pre ++ '/' :: a := by
    rw [dropRightWhile]
    have hrev2 : ((pre ++ '/' :: a) ++ ['/']).reverse
        = '/' :: (a.reverse ++ '/' :: pre.reverse) := by
      simp
    rw [hrev2, List.dropWhile_cons,
      if_pos (show decide ('/' = '/') = true by decide)]
    obtain ⟨y, ys, hy⟩ : ∃ y ys, a.reverse = y :: ys := by
      cases hc : a.reverse with
      | nil => exact absurd (List.reverse_eq_nil_iff.mp hc) ha
      | cons x t => exact ⟨x, t, rfl⟩
    have hymem : y ∈ a := by
      rw [← List.mem_reverse, hy]
      simp
    have hyne : decide (y = '/') = false := by
      simp only [decide_eq_false_iff_not]
      intro hc
      exact hsa (hc ▸ hymem)
    rw [hy, List.cons_append, List.dropWhile_cons, hyne]
    simp only [Bool.false_eq_true, if_false]
    rw [← List.cons_append, ← hy]
    simp
  rw [ospathSplit]
  simp only [htail, hlen, htake]
  rw [if_pos ⟨by simp, hany⟩, hdropr]

theorem polish_polish (s : PyStr) : polish (polish s) = polish s := by
  by_cases h : pyStrip s = []
  · rw [polish_of_strip_nil h]
    rfl
  · obtain ⟨h1, h2, h3⟩ := polish_fixed h
    rw [polish, h1, h2]
    exact replaceChar_of_not_mem h3

theorem textField_isSome {v : Option JVal} (h : isNotBoolField v = true) :
    ∃ s : PyStr, textField v = some s := by
  cases v with
  | none => exact ⟨[], rfl⟩
  | some jv =>
    cases jv with
    | s w => exact ⟨polish w, rfl⟩
    | b w => exact absurd h (by simp [isNotBoolField])

theorem typeField_isSome {v : Option JVal} (h : isNotBoolField v = true) :
    ∃ s : PyStr, typeField v = some s := by
  cases v with
  | none => exact ⟨str "Unknown", rfl⟩
  | some jv =>
    cases jv with
    | s w => exact ⟨w, rfl⟩
    | b w => exact absurd h (by simp [isNotBoolField])

/-! Claim theorems. -/

/-- Claim C1 (code-bug evidence): decoding a header/body pair whose sender
line is not the expected fixed sender does NOT produce a distinct
"not a tool shed notification" outcome that the caller handles by skipping:
`parseEmail` returns its bare early-return value, on which `self.sender` and
`self.subject` have already been assigned (a partially populated record),
and `ToolShedRepo.__init__` then unconditionally calls `getToolShedInfo`,
which crashes with an AttributeError on the never-assigned `self.name`
while building the API URL — the run aborts instead of skipping/logging
(the source itself notes `# need to raise an error.` at the early return). -/
theorem c1_mismatched_sender_crashes :
    parseEmail c1Header c1AnyBody false =
      ParseOutcome.notToolShed (str "someone@example.com")
        (str "Galaxy tool shed repository update alert") ∧
    tsInit c1Header c1AnyBody false [] = InitOutcome.attributeError := by
  exact ⟨rfl, rfl⟩

/-- Claim C3: the text normalizer `polish` is idempotent on every input, and
satisfies the fixed examples: `""` maps to `""`, `"abc"` to `"abc."`,
`"abc."` to `"abc."`, and `"a\nb"` to `"a  b."`. -/
theorem c3_polish_idempotent_and_examples :
    (∀ s : PyStr, polish (polish s) = polish s) ∧
    polish (str "") = str "" ∧
    polish (str "abc") = str "abc." ∧
    polish (str "abc.") = str "abc." ∧
    polish (str "a\nb") = str "a  b." :=
  ⟨polish_polish, rfl, rfl, rfl, rfl⟩

/-- Claim C6: flagged status is checked before the new/update classification
and overrides it — a record with `passe = true` is appended to the flat
passe sequence in encounter order and the nested new-tools and updates
structures are left unchanged, whatever the subject says (the equation holds
even for subjects on which `isNew`/`isUpdate` would raise). -/
theorem c6_passe_overrides :
    ∀ (st : AggState) (r : Repo), r.passe = true →
      mainStep st r =
        StepResult.ok ⟨st.newToolRepos, st.updates, st.passe ++ [r]⟩ := by
  intro st r h
  rw [mainStep, if_pos h]

/-- Witness for C6 at a concrete flagged record whose subject says new. -/
theorem c6_passe_overrides_witness :
    mainStep emptyAgg repoPasse = StepResult.ok ⟨[], [], [repoPasse]⟩ :=
  c6_passe_overrides emptyAgg repoPasse rfl

/-- Claim C7 counterexample: the claim says `deleted`, `deprecated`,
`description`, `long_description`, `type` and `malicious` are ALL optional,
but `_tsData[0]["deleted"]` is always read without a membership test: a
two-element response missing `deleted` makes the enrichment raise KeyError
(modelled `none`) instead of default-filling, while the same response with
`deleted` present parses fine; and the claimed two-element shape with a
separate `malicious` carrier is not required either — a one-element response
whose truthy `deleted` short-circuits the `or` chain also succeeds. -/
theorem c7_counterexample_deleted_required :
    getToolShedInfo tsRespNoDeleted = none ∧
    getToolShedInfo tsRespMinimal = some ⟨false, [], [], str "Unknown"⟩ ∧
    getToolShedInfo tsRespDeletedOnly = some ⟨true, [], [], str "Unknown"⟩ :=
  ⟨rfl, rfl, rfl⟩

/-- Claim C7 (amended): the flagged bit is
`element0.deleted or element0.deprecated or element1.malicious` evaluated
with Python's short-circuiting `or`: `deleted` is required unconditionally
(first conjunct after the defaults: a truthy `deleted` alone makes the
enrichment succeed flagged, with no constraint on `deprecated`, element 1
or `malicious`); `deprecated` is read only when `deleted` is falsy (second:
falsy `deleted` plus truthy `deprecated` succeed flagged with no constraint
on element 1); element 1 and its `malicious` key are read only when both
are falsy (third: then the flagged bit equals `malicious`).  `description`,
`long_description` and `type` are optional with defaults empty synopsis,
empty long description and category `"Unknown"`. -/
theorem c7_amended_enrichment :
    (textField none = some [] ∧ typeField none = some (str "Unknown")) ∧
    (∀ (tsData : List JObj) (e0 : JObj),
      tsData[0]? = some e0 →
      jget e0 (str "deleted") = some (JVal.b true) →
      isNotBoolField (jget e0 (str "description")) = true →
      isNotBoolField (jget e0 (str "long_description")) = true →
      isNotBoolField (jget e0 (str "type")) = true →
      ∃ syn desc ty : PyStr,
        textField (jget e0 (str "description")) = some syn ∧
        textField (jget e0 (str "long_description")) = some desc ∧
        typeField (jget e0 (str "type")) = some ty ∧
        getToolShedInfo tsData = some ⟨true, syn, desc, ty⟩) ∧
    (∀ (tsData : List JObj) (e0 : JObj),
      tsData[0]? = some e0 →
      jget e0 (str "deleted") = some (JVal.b false) →
      jget e0 (str "deprecated") = some (JVal.b true) →
      isNotBoolField (jget e0 (str "description")) = true →
      isNotBoolField (jget e0 (str "long_description")) = true →
      isNotBoolField (jget e0 (str "type")) = true →
      ∃ syn desc ty : PyStr,
        textField (jget e0 (str "description")) = some syn ∧
        textField (jget e0 (str "long_description")) = some desc ∧
        typeField (jget e0 (str "type")) = some ty ∧
        getToolShedInfo tsData = some ⟨true, syn, desc, ty⟩) ∧
    (∀ (tsData : List JObj) (e0 e1 : JObj) (mal : Bool),
      tsData[0]? = some e0 →
      jget e0 (str "deleted") = some (JVal.b false) →
      jget e0 (str "deprecated") = some (JVal.b false) →
      tsData[1]? = some e1 →
      jget e1 (str "malicious") = some (JVal.b mal) →
      isNotBoolField (jget e0 (str "description")) = true →
      isNotBoolField (jget e0 (str "long_description")) = true →
      isNotBoolField (jget e0 (str "type")) = true →
      ∃ syn desc ty : PyStr,
        textField (jget e0 (str "description")) = some syn ∧
        textField (jget e0 (str "long_description")) = some desc ∧
        typeField (jget e0 (str "type")) = some ty ∧
        getToolShedInfo tsData = some ⟨mal, syn, desc, ty⟩) := by
  refine ⟨⟨rfl, rfl⟩, ?_, ?_, ?_⟩
  · intro tsData e0 h0 hdel hd hl ht
    obtain ⟨syn, hsyn⟩ := textField_isSome hd
    obtain ⟨desc, hdesc⟩ := textField_isSome hl
    obtain ⟨ty, hty⟩ := typeField_isSome ht
    refine ⟨syn, desc, ty, hsyn, hdesc, hty, ?_⟩
    simp only [getToolShedInfo, h0, hdel, hsyn, hdesc, hty]
  · intro tsData e0 h0 hdel hdep hd hl ht
    obtain ⟨syn, hsyn⟩ := textField_isSome hd
    obtain ⟨desc, hdesc⟩ := textField_isSome hl
    obtain ⟨ty, hty⟩ := typeField_isSome ht
    refine ⟨syn, desc, ty, hsyn, hdesc, hty, ?_⟩
    simp only [getToolShedInfo, h0, hdel, hdep, hsyn, hdesc, hty]
  · intro tsData e0 e1 mal h0 hdel hdep h1 hmal hd hl ht
    obtain ⟨syn, hsyn⟩ := textField_isSome hd
    obtain ⟨desc, hdesc⟩ := textField_isSome hl
    obtain ⟨ty, hty⟩ := typeField_isSome ht
    refine ⟨syn, desc, ty, hsyn, hdesc, hty, ?_⟩
    simp only [getToolShedInfo, h0, hdel, hdep, h1, hmal, hsyn, hdesc, hty]

/-- Witness for the amended C7 on the minimal concrete response, exercising
the full `or` chain (falsy `deleted` and `deprecated`, `malicious` read
from element 1). -/
theorem c7_amended_enrichment_witness :
    ∃ syn desc ty : PyStr,
      textField (jget tsRespMinimalE0 (str "description")) = some syn ∧
      textField (jget tsRespMinimalE0 (str "long_description")) = some desc ∧
      typeField (jget tsRespMinimalE0 (str "type")) = some ty ∧
      getToolShedInfo tsRespMinimal = some ⟨false, syn, desc, ty⟩ :=
  c7_amended_enrichment.2.2.2 tsRespMinimal tsRespMinimalE0 tsRespMinimalE1
    false rfl rfl rfl rfl rfl rfl rfl rfl

/-- Claim C2: on well-formed bodies the commit-message accumulation of
`parseEmail` matches the claim's description word for word (iterate from the
fixed start index until a line beginning with "Uploaded by" or "Changed by",
exclusive; a line whose first token is exactly "Uploaded" contributes only
its trailing words; with the strip-planemo option a line beginning with
"planemo upload" contributes nothing, without it the line is included whole;
re-normalize after each contribution): the code loop and the claim-worded
loop agree on every scan region satisfying `scanWF`, and on the concrete
planemo line the flag excludes or includes it as claimed. -/
theorem c2_commit_accumulation :
    (∀ (strip : Bool) (lines : List PyStr) (acc : PyStr), scanWF lines = true →
      commitLoop strip lines acc = commitClaimLoop strip lines acc) ∧
    commitLoop true planemoLines (str "") = some (str "") ∧
    commitLoop false planemoLines (str "") =
      some (str "planemo upload of some tool.") := by
  refine ⟨fun strip lines acc h => commitLoop_eq_claim strip lines acc h, rfl, rfl⟩

/-- Witness for C2 on the concrete commit region of the body fixture. -/
theorem c2_commit_accumulation_witness :
    scanWF (c10Body.drop 5) = true ∧
    commitLoop false (c10Body.drop 5) (str "") =
      commitClaimLoop false (c10Body.drop 5) (str "") :=
  ⟨rfl, c2_commit_accumulation.1 false (c10Body.drop 5) (str "") rfl⟩

/-- Claim C4: classification of a decoded record depends only on token
index 3 of the subject: `isUpdate` compares it with "update", `isNew` with
"alert", exactly one of new / update / unrecognized holds, and in the
unrecognized case the main loop takes the diagnostic branch and discards the
record (state unchanged). -/
theorem c4_classification :
    (∀ (subject t : PyStr), (pySplitWs subject)[3]? = some t →
      isUpdate subject = some (decide (t = str "update")) ∧
      isNew subject = some (decide (t = str "alert")) ∧
      ¬(t = str "alert" ∧ t = str "update") ∧
      ((t = str "alert" ∧ t ≠ str "update") ∨
       (t = str "update" ∧ t ≠ str "alert") ∨
       (t ≠ str "alert" ∧ t ≠ str "update"))) ∧
    (∀ (st : AggState) (r : Repo), r.passe = false →
      isNew r.subject = some false → isUpdate r.subject = some false →
      mainStep st r = StepResult.diag st) := by
  constructor
  · intro subject t h
    refine ⟨?_, ?_, ?_, ?_⟩
    · rw [isUpdate, h]
      rfl
    · rw [isNew, h]
      rfl
    · rintro ⟨h1, h2⟩
      exact absurd (h1.symm.trans h2) (by decide)
    · by_cases ha : t = str "alert"
      · exact Or.inl ⟨ha, fun hu => absurd (ha.symm.trans hu) (by decide)⟩
      · by_cases hu : t = str "update"
        · exact Or.inr (Or.inl ⟨hu, ha⟩)
        · exact Or.inr (Or.inr ⟨ha, hu⟩)
  · intro st r hp hn hu
    simp only [mainStep, hp, Bool.false_eq_true, if_false, hn, hu]

/-- Witness for C4 at a concrete update subject and a concrete unrecognized
record. -/
theorem c4_classification_witness :
    (isUpdate subjUpd = some (decide ((str "update") = str "update")) ∧
     isNew subjUpd = some (decide ((str "update") = str "alert")) ∧
     ¬((str "update") = str "alert" ∧ (str "update") = str "update") ∧
     (((str "update") = str "alert" ∧ (str "update") ≠ str "update") ∨
      ((str "update") = str "update" ∧ (str "update") ≠ str "alert") ∨
      ((str "update") ≠ str "alert" ∧ (str "update") ≠ str "update"))) ∧
    mainStep emptyAgg repoOther = StepResult.diag emptyAgg :=
  ⟨c4_classification.1 subjUpd (str "update") rfl,
   c4_classification.2 emptyAgg repoOther rfl rfl rfl⟩

/-- Claim C9: on a subject with fewer than four whitespace tokens both
classifiers are undefined (IndexError, modelled `none`) rather than
returning an unrecognized outcome; with at least four tokens both are total
and never simultaneously true. -/
theorem c9_subject_token_safety :
    ∀ subject : PyStr,
      ((pySplitWs subject).length < 4 →
        isUpdate subject = none ∧ isNew subject = none) ∧
      (4 ≤ (pySplitWs subject).length →
        ∃ u n : Bool, isUpdate subject = some u ∧ isNew subject = some n ∧
          ¬(u = true ∧ n = true)) := by
  intro subject
  constructor
  · intro hlt
    have hnone : (pySplitWs subject)[3]? = none := by
      rw [List.getElem?_eq_none_iff]
      omega
    rw [isUpdate, hnone, isNew, hnone]
    exact ⟨rfl, rfl⟩
  · intro hge
    have hlt : 3 < (pySplitWs subject).length := by omega
    have hsome : (pySplitWs subject)[3]? = some ((pySplitWs subject)[3]) :=
      List.getElem?_eq_getElem hlt
    refine ⟨decide ((pySplitWs subject)[3] = str "update"),
      decide ((pySplitWs subject)[3] = str "alert"), ?_, ?_, ?_⟩
    · rw [isUpdate, hsome]
      rfl
    · rw [isNew, hsome]
      rfl
    · rintro ⟨hu, hn⟩
      rw [decide_eq_true_eq] at hu hn
      exact absurd (hu.symm.trans hn) (by decide)

/-- Witness for C9 at a two-token subject and a five-token subject. -/
theorem c9_subject_token_safety_witness :
    (isUpdate (str "too short") = none ∧ isNew (str "too short") = none) ∧
    (∃ u n : Bool, isUpdate subjUpd = some u ∧ isNew subjUpd = some n ∧
      ¬(u = true ∧ n = true)) :=
  ⟨(c9_subject_token_safety (str "too short")).1 (by decide),
   (c9_subject_token_safety subjUpd).2 (by decide)⟩

/-- Claim C5: aggregation keeps only the first new-publication record per
(category, author, repositoryName) triple — a later record with the same
triple leaves the stored record unchanged, so two inserts into a fresh
triple keep the first — while update records are appended to the ordered
per-triple list, so two inserts into a fresh triple keep both in insertion
order; and the main loop routes unflagged new/update records to exactly
these insertions. -/
theorem c5_aggregation :
    (∀ (idx : NewIndex) (r : Repo),
      dlookup3 (insertNew idx r) r.type r.author r.name =
        some ((dlookup3 idx r.type r.author r.name).getD r)) ∧
    (∀ (idx : UpdIndex) (r : Repo),
      dlookup3U (insertUpd idx r) r.type r.author r.name =
        some (((dlookup3U idx r.type r.author r.name).getD []) ++ [r])) ∧
    (∀ (idx : NewIndex) (r1 r2 : Repo), r2.type = r1.type →
      r2.author = r1.author → r2.name = r1.name →
      dlookup3 idx r1.type r1.author r1.name = none →
      dlookup3 (insertNew (insertNew idx r1) r2) r1.type r1.author r1.name =
        some r1) ∧
    (∀ (idx : UpdIndex) (r1 r2 : Repo), r2.type = r1.type →
      r2.author = r1.author → r2.name = r1.name →
      dlookup3U idx r1.type r1.author r1.name = none →
      dlookup3U (insertUpd (insertUpd idx r1) r2) r1.type r1.author r1.name =
        some [r1, r2]) ∧
    (∀ (st : AggState) (r : Repo), r.passe = false →
      isNew r.subject = some true →
      mainStep st r =
        StepResult.ok ⟨insertNew st.newToolRepos r, st.updates, st.passe⟩) ∧
    (∀ (st : AggState) (r : Repo), r.passe = false →
      isNew r.subject = some false → isUpdate r.subject = some true →
      mainStep st r =
        StepResult.ok ⟨st.newToolRepos, insertUpd st.updates r, st.passe⟩) := by
  refine ⟨dlookup3_insertNew, dlookup3U_insertUpd, ?_, ?_, ?_, ?_⟩
  · intro idx r1 r2 ht ha hn h0
    have l2 := dlookup3_insertNew (insertNew idx r1) r2
    rw [ht, ha, hn] at l2
    have l1 := dlookup3_insertNew idx r1
    rw [h0] at l1
    simp only [Option.getD_none] at l1
    rw [l2, l1]
    simp
  · intro idx r1 r2 ht ha hn h0
    have l2 := dlookup3U_insertUpd (insertUpd idx r1) r2
    rw [ht, ha, hn] at l2
    have l1 := dlookup3U_insertUpd idx r1
    rw [h0] at l1
    simp only [Option.getD_none, List.nil_append] at l1
    rw [l2, l1]
    simp
  · intro st r hp hn
    simp only [mainStep, hp, Bool.false_eq_true, if_false, hn]
  · intro st r hp hn hu
    simp only [mainStep, hp, Bool.false_eq_true, if_false, hn, hu]

/-- Witness for C5: two duplicate new records keep the first, two duplicate
update records keep both in order. -/
theorem c5_aggregation_witness :
    dlookup3 (insertNew (insertNew [] repoA) repoB)
      repoA.type repoA.author repoA.name = some repoA ∧
    dlookup3U (insertUpd (insertUpd [] repoU1) repoU2)
      repoU1.type repoU1.author repoU1.name = some [repoU1, repoU2] :=
  ⟨c5_aggregation.2.2.1 [] repoA repoB rfl rfl rfl rfl,
   c5_aggregation.2.2.2.1 [] repoU1 repoU2 rfl rfl rfl rfl⟩

/-- Claim C8: on a well-formed body the decoder takes the link as the third
whitespace token of body line 1, derives `authorUrl` as scheme + host +
all-but-last path segment, `author` as that path's final segment and
`repositoryName` as the link's final path segment, and extracts the revision
as field index 2 of body line 3 split on `:` (the hash part of
`Revision: <number>:<hash>`). -/
theorem c8_link_and_revision_extraction :
    ∀ (body : List PyStr) (strip : Bool) (linkLine w0 w1 : PyStr)
      (ws : List PyStr) (scheme host apPre a apTail n revLine c0 c1 rev : PyStr)
      (cs : List PyStr) (commit : PyStr),
      body[1]? = some linkLine →
      pySplitWs linkLine = w0 :: w1 ::
        (scheme ++ str "://" ++ host ++ ((apPre ++ '/' :: a) ++ '/' :: n)) :: ws →
      (':' : Char) ∉ scheme →
      ('/' : Char) ∉ host →
      apPre ++ '/' :: a = '/' :: apTail →
      a ≠ [] → ('/' : Char) ∉ a → ('/' : Char) ∉ n →
      body[3]? = some revLine →
      pySplitChar ':' revLine = c0 :: c1 :: rev :: cs →
      commitLoop strip (body.drop 5) [] = some commit →
      parseBody body strip = some
        ⟨scheme ++ str "://" ++ host ++ ((apPre ++ '/' :: a) ++ '/' :: n),
         scheme ++ str "://" ++ host ++ (apPre ++ '/' :: a),
         a, n, rev, commit⟩ := by
  intro body strip linkLine w0 w1 ws scheme host apPre a apTail n revLine
    c0 c1 rev cs commit hb1 hsplit hsch hhost hap hane hsa hsn hb3 hrevsp hcommit
  have hurl : (pySplitWs linkLine)[2]? =
      some (scheme ++ str "://" ++ host ++ ((apPre ++ '/' :: a) ++ '/' :: n)) := by
    rw [hsplit]
    simp
  have hup : urlparse (scheme ++ str "://" ++ host ++ ((apPre ++ '/' :: a) ++ '/' :: n)) =
      ⟨scheme, host, (apPre ++ '/' :: a) ++ '/' :: n⟩ := by
    rw [hap]
    have h2 : ('/' :: apTail) ++ '/' :: n = '/' :: (apTail ++ '/' :: n) := by simp
    rw [h2]
    exact urlparse_std scheme host (apTail ++ '/' :: n) hsch hhost
  have hos : ospathSplit ((apPre ++ '/' :: a) ++ '/' :: n) = (apPre ++ '/' :: a, n) :=
    ospathSplit_std apPre a n hane hsa hsn
  have hauthor : (pySplitChar '/'
      (scheme ++ str "://" ++ host ++ (apPre ++ '/' :: a))).getLastD [] = a := by
    have hre : scheme ++ str "://" ++ host ++ (apPre ++ '/' :: a)
        = (scheme ++ str "://" ++ host ++ apPre) ++ '/' :: a := by simp
    rw [hre, pySplitChar, getLastD_splitBy]
    have hrev2 : ((scheme ++ str "://" ++ host ++ apPre) ++ '/' :: a).reverse
        = a.reverse ++ '/' :: (scheme ++ str "://" ++ host ++ apPre).reverse := by
      simp
    rw [hrev2, takeWhile_append_cons _ ?_ ?_]
    · exact List.reverse_reverse a
    · intro x hx
      simp only [Bool.not_eq_true', decide_eq_false_iff_not]
      intro hc
      exact hsa (hc ▸ List.mem_reverse.mp hx)
    · simp
  have hrevSome : (pySplitChar ':' revLine)[2]? = some rev := by
    rw [hrevsp]
    simp
  simp only [parseBody, hb1, hurl, hup, hos, hauthor, hb3, hrevSome, hcommit]

/-- Witness for C8 on the concrete body fixture. -/
theorem c8_link_and_revision_extraction_witness :
    parseBody c10Body false = some
      ⟨str "https://toolshed.g2.bx.psu.edu/view/alice/mytool",
       str "https://toolshed.g2.bx.psu.edu/view/alice",
       str "alice", str "mytool", str "deadbeef1234", str "foo.bar."⟩ :=
  c8_link_and_revision_extraction c10Body false
    (str "Sharable link:         https://toolshed.g2.bx.psu.edu/view/alice/mytool")
    (str "Sharable") (str "link:") [] (str "https")
    (str "toolshed.g2.bx.psu.edu") (str "/view") (str "alice")
    (str "view/alice") (str "mytool")
    (str "Revision:              4:deadbeef1234") (str "Revision")
    (str "              4") (str "deadbeef1234") [] (str "foo.bar.")
    rfl (by decide) (by decide) (by decide) (by decide) (by decide) (by decide)
    (by decide) rfl (by decide) rfl

/-- Claim C10: consecutive ordinary free-text commit lines are concatenated
with no separating character — the accumulator is period-terminated after
each line and the next line is appended directly, so lines "foo" then "bar"
yield the commit message "foo.bar.", both in the loop (for any strip flag
and any continuation after the stop line) and end to end on the body
fixture. -/
theorem c10_adjacent_lines_concatenated :
    (∀ (strip : Bool) (rest : List PyStr),
      commitLoop strip
        (str "foo" :: str "bar" :: str "Uploaded by:           alice" :: rest)
        (str "") = some (str "foo.bar.")) ∧
    (parseBody c10Body false).map BodyFields.commit = some (str "foo.bar.") := by
  constructor
  · intro strip rest
    cases strip <;> rfl
  · rfl

end ToolShedEmail
